import Mathlib

set_option maxHeartbeats 1000000
set_option maxRecDepth 8000

/-!
Shallow embedding of the sesamo UI library core: the reactive cell (Ref),
the unmount registry and tree-removal detector (cleanup), the mount entry
point, and the hash router.  Nodes, subscriber callbacks and cleanup
callbacks are identified by natural-number ids (modelling JS object
references); JS Map / WeakMap state is modelled by association lists and
the document connectivity oracle by a list of connected node ids.
-/

/-! ### Association-list primitives (model of JS Map / WeakMap) -/

/-- Map lookup: first entry with the given key (JS Map.get / WeakMap.get). -/
def lookupEntry {κ α : Type} [DecidableEq κ] : List (κ × α) → κ → Option α
  | [], _ => none
  | p :: ps, k => if p.1 = k then some p.2 else lookupEntry ps k

/-- Replace the value stored at a key (mutation of an existing Map entry). -/
def setEntry {κ α : Type} [DecidableEq κ] : List (κ × α) → κ → α → List (κ × α)
  | [], _, _ => []
  | p :: ps, k, v => if p.1 = k then (k, v) :: setEntry ps k v else p :: setEntry ps k v

/-- Delete the entry stored at a key (JS Map.delete / WeakMap.delete). -/
def eraseEntry {κ α : Type} [DecidableEq κ] : List (κ × α) → κ → List (κ × α)
  | [], _ => []
  | p :: ps, k => if p.1 = k then eraseEntry ps k else p :: eraseEntry ps k

/-- Map set: overwrite the existing entry or append a new one (JS Map.set). -/
def mapSet {κ α : Type} [DecidableEq κ] (m : List (κ × α)) (k : κ) (v : α) : List (κ × α) :=
  match lookupEntry m k with
  | none => m ++ [(k, v)]
  | some _ => setEntry m k v

/-- Number of occurrences of an element in a list. -/
def countOcc {α : Type} [DecidableEq α] (a : α) : List α → Nat
  | [] => 0
  | b :: l => (if b = a then 1 else 0) + countOcc a l

/-- Boolean test that a list has no duplicate elements (JS Set contents). -/
def distinctList {α : Type} [DecidableEq α] : List α → Bool
  | [] => true
  | a :: l => if a ∈ l then false else distinctList l

/-! ### JS values and the reactive cell

Source: the Ref class (src/src/public/h.ts, second part, and the copy in
src/tests/h.test.ts second part).  Object.is same-value identity is
structural equality on JSVal: nan is identical to itself, posZero and
negZero are distinct constructors, and function objects are identified by
a reference id. -/

/-- Runtime value stored in a reactive cell. -/
inductive JSVal where
  | nan : JSVal
  | posZero : JSVal
  | negZero : JSVal
  | num : Int → JSVal
  | str : String → JSVal
  | funcId : Nat → JSVal
deriving DecidableEq, Repr

/-- Runtime test corresponding to a JS typeof-function check. -/
def isFunctionVal : JSVal → Bool
  | .funcId _ => true
  | _ => false

/-- State of one Ref cell: the stored value and the subscriber Set in
insertion order (JS Set iteration order, no duplicates). -/
structure RefState where
  value : JSVal
  subs : List Nat
deriving DecidableEq, Repr

/-- The nextValue computation of Ref.set: a function argument is invoked
as an updater on the previous value (typeof next is checked at runtime),
any other argument is used directly.  The environment env gives the body
of each function object. -/
def computeNext (env : Nat → JSVal → JSVal) (prev next : JSVal) : JSVal :=
  match next with
  | .funcId k => env k prev
  | v => v

/-- The notification loop of Ref.set over a snapshot of subscribers.
Invoking subscriber fn may mutate the cell state (subEff) and may throw
(thr); a throw is caught by the try/catch in the loop body and the loop
continues either way.  Returns the final state and the list of invoked
subscribers in order. -/
def notifyLoop (subEff : Nat → RefState → RefState) (thr : Nat → Bool) :
    List Nat → RefState → RefState × List Nat
  | [], st => (st, [])
  | fn :: rest, st =>
      let st1 := subEff fn st
      if thr fn then
        let p := notifyLoop subEff thr rest st1
        (p.1, fn :: p.2)
      else
        let p := notifyLoop subEff thr rest st1
        (p.1, fn :: p.2)

/-- Ref.set (src/src/public/h.ts, Ref class): compute nextValue, compare
with Object.is, return the previous value unchanged when identical;
otherwise store the new value, snapshot the subscriber set, notify every
snapshotted subscriber (errors swallowed) and return the stored value.
Result: (final cell state, returned value, invoked subscribers). -/
def Ref.set (env : Nat → JSVal → JSVal) (subEff : Nat → RefState → RefState)
    (thr : Nat → Bool) (st : RefState) (next : JSVal) : RefState × JSVal × List Nat :=
  let prev := st.value
  let nextValue := computeNext env prev next
  if prev = nextValue then
    (st, prev, [])
  else
    let st1 : RefState := { st with value := nextValue }
    let listeners := st1.subs
    let p := notifyLoop subEff thr listeners st1
    (p.1, p.1.value, p.2)

/-- Ref.subscribe: add a subscriber to the Set (idempotent). -/
def Ref.subscribe (st : RefState) (fn : Nat) : RefState :=
  if fn ∈ st.subs then st else { st with subs := st.subs ++ [fn] }

/-- Removal of the first occurrence of a subscriber id. -/
def removeSub : List Nat → Nat → List Nat
  | [], _ => []
  | a :: l, fn => if a = fn then l else a :: removeSub l fn

/-- Ref.unsub: delete a subscriber from the Set. -/
def Ref.unsub (st : RefState) (fn : Nat) : RefState :=
  { st with subs := removeSub st.subs fn }

/-- Subscriber behaviour that does not mutate the cell (a pure observer). -/
def pureEff : Nat → RefState → RefState := fun _ st => st

/-- Subscriber behaviour that never throws. -/
def noThrow : Nat → Bool := fun _ => false

/-- Run a sequence of Ref.set calls, concatenating the invoked-subscriber
lists of every call. -/
def runSets (env : Nat → JSVal → JSVal) (subEff : Nat → RefState → RefState)
    (thr : Nat → Bool) : RefState → List JSVal → RefState × List Nat
  | st, [] => (st, [])
  | st, a :: rest =>
      let r := Ref.set env subEff thr st a
      let q := runSets env subEff thr r.1 rest
      (q.1, r.2.2 ++ q.2)

/-- Number of calls in a sequence of set arguments whose computed next
value differs (under same-value identity) from the value current at that
call. -/
def changedCount (env : Nat → JSVal → JSVal) : JSVal → List JSVal → Nat
  | _, [] => 0
  | v, a :: rest =>
      let n := computeNext env v a
      if v = n then changedCount env v rest else 1 + changedCount env n rest

/-! ### The unmount registry

Source: nodeUnmountCallbacks, onUnmount, runUnmountCallbacks in
src/src/cleanup.ts lines 9-82 and src/src/internal/cleanup.ts (both
parts).  Nodes and cleanup callbacks are Nat ids; the WeakMap is an
association list from node id to the Set of callback ids in insertion
order.  A cleanup callback may itself register new cleanups: regs c lists
the (node, callback) registrations performed when callback c runs, and
thr c tells whether it throws (the throw is always caught). -/

/-- The registry: node id to registered cleanup callback ids. -/
abbrev Registry := List (Nat × List Nat)

/-- Trace of executed cleanups: (node the callback was registered on,
callback id), in execution order. -/
abbrev Trace := List (Nat × Nat)

/-- onUnmount (src/src/cleanup.ts lines 17-25): get or create the Set for
the node, then Set.add the callback (no duplicates). -/
def onUnmount (reg : Registry) (node fn : Nat) : Registry :=
  match lookupEntry reg node with
  | none => reg ++ [(node, [fn])]
  | some s => if fn ∈ s then reg else setEntry reg node (s ++ [fn])

/-- Effect of invoking cleanup callback c: perform its registrations. -/
def cbRun (regs : Nat → List (Nat × Nat)) (reg : Registry) (c : Nat) : Registry :=
  (regs c).foldl (fun acc p => onUnmount acc p.1 p.2) reg

/-- The callback loop of the snapshot-based runUnmountCallbacks: invoke
each snapshotted callback in order inside try/catch; a throwing callback
(thr c) is caught and the loop continues either way. -/
def cbLoop (regs : Nat → List (Nat × Nat)) (thr : Nat → Bool) (node : Nat) :
    List Nat → Registry → Registry × Trace
  | [], reg => (reg, [])
  | c :: rest, reg =>
      let reg1 := cbRun regs reg c
      if thr c then
        let p := cbLoop regs thr node rest reg1
        (p.1, (node, c) :: p.2)
      else
        let p := cbLoop regs thr node rest reg1
        (p.1, (node, c) :: p.2)

/-- runUnmountCallbacks, snapshot variant (src/src/cleanup.ts lines 65-82
and src/src/internal/cleanup.ts lines 136-153): look up the Set for the
node; if absent return; otherwise snapshot the callbacks (Array.from),
clear the Set and delete the map entry, then invoke every snapshotted
callback, swallowing individual errors. -/
def runUnmountCallbacks (regs : Nat → List (Nat × Nat)) (thr : Nat → Bool)
    (reg : Registry) (node : Nat) : Registry × Trace :=
  match lookupEntry reg node with
  | none => (reg, [])
  | some s =>
      let callbacks := s
      let reg1 := eraseEntry reg node
      cbLoop regs thr node callbacks reg1

/-- Registered callbacks of a node ([] when the node has no entry). -/
def getEntry (reg : Registry) (node : Nat) : List Nat :=
  (lookupEntry reg node).getD []

/-- Iteration of the live-set variant of runUnmountCallbacks
(src/src/internal/cleanup.ts lines 75-89): for (const fn of set) iterates
the live Set, so elements added to the Set of this node while iterating
are also visited.  Index i is the iterator position; fuel bounds the
iteration, which diverges in the source when callbacks keep adding fresh
callbacks to the same node. -/
def liveLoop (regs : Nat → List (Nat × Nat)) (thr : Nat → Bool) (node : Nat) :
    Nat → Nat → Registry → Registry × Trace
  | 0, _, reg => (reg, [])
  | fuel + 1, i, reg =>
      match lookupEntry reg node with
      | none => (reg, [])
      | some s =>
          if h : i < s.length then
            let c := s.get ⟨i, h⟩
            let reg1 := cbRun regs reg c
            if thr c then
              let p := liveLoop regs thr node fuel (i + 1) reg1
              (p.1, (node, c) :: p.2)
            else
              let p := liveLoop regs thr node fuel (i + 1) reg1
              (p.1, (node, c) :: p.2)
          else (reg, [])

/-- runUnmountCallbacks, live-set variant (src/src/internal/cleanup.ts
lines 75-89): if the node has no Set return; otherwise iterate the live
Set running each callback with errors swallowed, and only afterwards
clear the Set and delete the map entry. -/
def runUnmountCallbacksLive (regs : Nat → List (Nat × Nat)) (thr : Nat → Bool)
    (fuel : Nat) (reg : Registry) (node : Nat) : Registry × Trace :=
  match lookupEntry reg node with
  | none => (reg, [])
  | some _ =>
      let p := liveLoop regs thr node fuel 0 reg
      (eraseEntry p.1 node, p.2)

/-! ### DOM subtrees and the removal walks -/

/-- A DOM subtree: a node id together with its childNodes in order. -/
inductive DomTree where
  | node : Nat → List DomTree → DomTree

mutual
def decEqT : (a b : DomTree) → Decidable (a = b)
  | .node i cs, .node j ds =>
      match Nat.decEq i j with
      | isFalse h => isFalse (by intro hc; injection hc; contradiction)
      | isTrue h1 =>
        match decEqL cs ds with
        | isTrue h2 => isTrue (by rw [h1, h2])
        | isFalse h2 => isFalse (by intro hc; injection hc; contradiction)
def decEqL : (xs ys : List DomTree) → Decidable (xs = ys)
  | [], [] => isTrue rfl
  | [], _ :: _ => isFalse (by intro h; cases h)
  | _ :: _, [] => isFalse (by intro h; cases h)
  | x :: xs, y :: ys =>
      match decEqT x y with
      | isFalse h1 => isFalse (by intro hc; injection hc; contradiction)
      | isTrue h1 =>
        match decEqL xs ys with
        | isTrue h2 => isTrue (by rw [h1, h2])
        | isFalse h2 => isFalse (by intro hc; injection hc; contradiction)
end

instance : DecidableEq DomTree := decEqT

/-- Node id of the root of a subtree. -/
def DomTree.id : DomTree → Nat
  | .node i _ => i

mutual
def sizeT : DomTree → Nat
  | .node _ cs => 1 + sizeL cs
def sizeL : List DomTree → Nat
  | [] => 0
  | t :: ts => 1 + sizeT t + sizeL ts
end

mutual
/-- Specification order of a subtree walk: the root first, then the
descendants of each child in order (pre-order, left-to-right). -/
def preorder : DomTree → List Nat
  | .node i cs => i :: preorderList cs
def preorderList : List DomTree → List Nat
  | [] => []
  | t :: ts => preorder t ++ preorderList ts
end

/-- Result of a subtree walk: final registry, node ids visited in order,
and the trace of executed cleanup callbacks. -/
structure WalkOut where
  reg : Registry
  visited : List Nat
  trace : Trace
deriving DecidableEq

/-- The explicit-stack loop of unmountTree (src/src/internal/cleanup.ts
lines 52-68): pop a node, run its unmount callbacks, push its children in
reverse so the first child is processed next.  The stack is a list whose
head is the top; pushing the children in reverse yields children ++ rest. -/
def unmountTreeLoop (regs : Nat → List (Nat × Nat)) (thr : Nat → Bool) :
    List DomTree → Registry → WalkOut
  | [], reg => ⟨reg, [], []⟩
  | .node i cs :: rest, reg =>
      let p := runUnmountCallbacks regs thr reg i
      let q := unmountTreeLoop regs thr (cs ++ rest) p.1
      ⟨q.reg, i :: q.visited, p.2 ++ q.trace⟩
termination_by stack => sizeL stack
decreasing_by
  have h : ∀ (a b : List DomTree), sizeL (a ++ b) = sizeL a + sizeL b := by
    intro a b
    induction a with
    | nil => simp [sizeL]
    | cons t ts ih => simp [sizeL, ih]; omega
  simp [sizeL, sizeT, h]
  omega

/-- unmountTree (src/src/internal/cleanup.ts lines 52-68): iterative
walk of a removed subtree, starting from a stack holding the root. -/
def unmountTree (regs : Nat → List (Nat × Nat)) (thr : Nat → Bool)
    (root : DomTree) (reg : Registry) : WalkOut :=
  unmountTreeLoop regs thr [root] reg

mutual
/-- traverseRemovedTree (src/src/cleanup.ts lines 52-58): run the unmount
callbacks of the node, then recurse into each child in order. -/
def traverseRemovedTree (regs : Nat → List (Nat × Nat)) (thr : Nat → Bool) :
    DomTree → Registry → WalkOut
  | .node i cs, reg =>
      let p := runUnmountCallbacks regs thr reg i
      let q := traverseChildren regs thr cs p.1
      ⟨q.reg, i :: q.visited, p.2 ++ q.trace⟩
/-- The childNodes.forEach recursion of traverseRemovedTree. -/
def traverseChildren (regs : Nat → List (Nat × Nat)) (thr : Nat → Bool) :
    List DomTree → Registry → WalkOut
  | [], reg => ⟨reg, [], []⟩
  | c :: cs, reg =>
      let p := traverseRemovedTree regs thr c reg
      let q := traverseChildren regs thr cs p.reg
      ⟨q.reg, p.visited ++ q.visited, p.trace ++ q.trace⟩
end

/-- Visit order of the explicit-stack walk, taken over a whole stack. -/
def preorderStack : List DomTree → List Nat
  | [] => []
  | .node i cs :: rest => i :: preorderStack (cs ++ rest)
termination_by stack => sizeL stack
decreasing_by
  have h : ∀ (a b : List DomTree), sizeL (a ++ b) = sizeL a + sizeL b := by
    intro a b
    induction a with
    | nil => simp [sizeL]
    | cons t ts ih => simp [sizeL, ih]; omega
  simp [sizeL, sizeT, h]
  omega

/-! ### The tree-removal detector (MutationObserver callback)

Source: the observer in src/src/internal/cleanup.ts lines 35-45 and
src/src/cleanup.ts lines 34-44.  The document is modelled by the list doc
of node ids currently connected; removed.isConnected is membership of the
removed node id in doc, checked at batch-processing time. -/

/-- One mutation record: the nodes reported as removed, with the subtree
shape they have at batch-processing time. -/
structure Mutation where
  removedNodes : List DomTree
deriving DecidableEq

/-- All removed nodes of a batch, in report order. -/
def allRemoved : List Mutation → List DomTree
  | [] => []
  | m :: ms => m.removedNodes ++ allRemoved ms

/-- The inner loop of the observer callback over the removed nodes of one
record: a node still connected at processing time was moved and is
skipped; a disconnected node has its subtree walked and unmounted. -/
def processRemovedList (doc : List Nat) (regs : Nat → List (Nat × Nat))
    (thr : Nat → Bool) : List DomTree → Registry → Registry × Trace
  | [], reg => (reg, [])
  | t :: ts, reg =>
      if t.id ∈ doc then
        processRemovedList doc regs thr ts reg
      else
        let p := unmountTree regs thr t reg
        let q := processRemovedList doc regs thr ts p.reg
        (q.1, p.trace ++ q.2)

/-- The observer callback over one delivered batch of mutation records. -/
def observerCallback (doc : List Nat) (regs : Nat → List (Nat × Nat))
    (thr : Nat → Bool) : List Mutation → Registry → Registry × Trace
  | [], reg => (reg, [])
  | m :: ms, reg =>
      let p := processRemovedList doc regs thr m.removedNodes reg
      let q := observerCallback doc regs thr ms p.1
      (q.1, p.2 ++ q.2)

/-! ### The mount entry point

Source: mount in src/src/public/mount.ts lines 29-38 and
src/src/cleanup.ts lines 111-118. -/

/-- Process-wide mount state: the children of each root container, the
WeakSet of roots already observed, and the log of observer.observe calls
in order. -/
structure MountWorld where
  childrenOf : List (Nat × List DomTree)
  observedRoots : List Nat
  observations : List Nat
deriving DecidableEq

/-- root.replaceChildren(node): all existing children of the root are
replaced by the produced node. -/
def replaceChildren (m : List (Nat × List DomTree)) (root : Nat)
    (cs : List DomTree) : List (Nat × List DomTree) :=
  match lookupEntry m root with
  | none => m ++ [(root, cs)]
  | some _ => setEntry m root cs

/-- mount (src/src/public/mount.ts lines 29-38): replace the children of
the root with the produced node, then, only if the root is not yet in the
observed-root WeakSet, call observer.observe on it and add it to the set. -/
def mount (w : MountWorld) (root : Nat) (produced : DomTree) : MountWorld :=
  let w1 := { w with childrenOf := replaceChildren w.childrenOf root [produced] }
  if root ∈ w1.observedRoots then w1
  else { w1 with observations := w1.observations ++ [root],
                 observedRoots := w1.observedRoots ++ [root] }

/-- A sequence of mount calls, each given as (root, produced node). -/
def runMounts (w : MountWorld) : List (Nat × DomTree) → MountWorld
  | [] => w
  | p :: rest => runMounts (mount w p.1 p.2) rest

/-! ### The hash router

Source: src/src/public/router.ts lines 1-143.  Components are ids mapped
by compFn to the node they produce; the rendered content of the router
root is a list of RNode. -/

/-- A node rendered into the router root: either a text node or the node
produced by a component. -/
inductive RNode where
  | text : String → RNode
  | elem : Nat → RNode
deriving DecidableEq, Repr

/-- Router module state: the active route map, the router root (none
before createRouter ran), the location hash, and the children currently
rendered into the router root. -/
structure RouterState where
  routes : List (String × Nat)
  routerRoot : Option Nat
  hash : String
  rootChildren : List RNode
deriving DecidableEq, Repr

/-- The startsWith test of JS strings, evaluated on the character list. -/
def strStartsWith (s pre : String) : Bool := pre.data.isPrefixOf s.data

/-- The slice/drop operation of JS strings, on the character list. -/
def strDrop (s : String) (n : Nat) : String := String.mk (s.data.drop n)

/-- normalizePath (router.ts lines 20-22). -/
def normalizePath (path : String) : String :=
  if strStartsWith path "/" then path else "/" ++ path

/-- getCurrentPathFromHash (router.ts lines 44-49). -/
def getCurrentPathFromHash (hash : String) : String :=
  let raw := if strStartsWith hash "#" then strDrop hash 1 else hash
  let path := if raw = "" then "/" else raw
  normalizePath path

/-- Assignment to location.hash: the browser stores the fragment with a
leading hash mark. -/
def setLocationHash (st : RouterState) (v : String) : RouterState :=
  { st with hash := if strStartsWith v "#" then v else "#" ++ v }

/-- ensureRouterRoot (router.ts lines 57-62): throw when createRouter has
not set the router root yet. -/
def ensureRouterRoot (st : RouterState) : Except String Nat :=
  match st.routerRoot with
  | none => Except.error "Router not initialized. Call createRouter(...) first."
  | some r => Except.ok r

/-- renderRoute (router.ts lines 69-80): require the router root; when no
component is mapped for the path, replace the root children with a single
Not found text node; otherwise invoke the component and replace the root
children with the produced node.  Also returns the ids of the components
invoked during the call. -/
def renderRoute (compFn : Nat → RNode) (st : RouterState) (path : String) :
    Except String (RouterState × List Nat) :=
  match ensureRouterRoot st with
  | Except.error e => Except.error e
  | Except.ok _ =>
      match lookupEntry st.routes path with
      | none => Except.ok ({ st with rootChildren := [RNode.text "Not found"] }, [])
      | some c => Except.ok ({ st with rootChildren := [compFn c] }, [c])

/-- navigate (router.ts lines 87-94): normalize the path, return early
when the hash already denotes it, otherwise assign location.hash.  The
body contains no initialization check and no throwing operation. -/
def navigate (st : RouterState) (path : String) : Except String RouterState :=
  let normalized := normalizePath path
  if getCurrentPathFromHash st.hash = normalized then Except.ok st
  else Except.ok (setLocationHash st normalized)

/-- setRoutes (router.ts lines 29-34): clear the route map and insert
every configured path, normalized. -/
def setRoutes (config : List (String × Nat)) : List (String × Nat) :=
  config.foldl (fun acc p => mapSet acc (normalizePath p.1) p.2) []

/-- createRouter (router.ts lines 127-143): set the router root, install
the routes, and render the route of the current hash once.  The
hashchange listener wiring is event-loop plumbing outside this model. -/
def createRouter (compFn : Nat → RNode) (root : Nat)
    (config : List (String × Nat)) (hash : String) :
    Except String (RouterState × List Nat) :=
  let st : RouterState :=
    { routes := setRoutes config, routerRoot := some root, hash := hash, rootChildren := [] }
  renderRoute compFn st (getCurrentPathFromHash hash)

/-! ## Theorems -/

/-! ### List and association-list lemmas -/

theorem countOcc_append {α : Type} [DecidableEq α] (a : α) (l1 l2 : List α) :
    countOcc a (l1 ++ l2) = countOcc a l1 + countOcc a l2 := by
  induction l1 with
  | nil => simp [countOcc]
  | cons b l ih => simp [countOcc, ih]; omega

theorem countOcc_eq_zero {α : Type} [DecidableEq α] {a : α} {l : List α}
    (h : a ∉ l) : countOcc a l = 0 := by
  induction l with
  | nil => rfl
  | cons b l ih =>
      rw [List.mem_cons, not_or] at h
      simp only [countOcc, ih h.2]
      rw [if_neg (fun e => h.1 e.symm)]

theorem distinctList_cons {α : Type} [DecidableEq α] {a : α} {l : List α} :
    distinctList (a :: l) = true ↔ a ∉ l ∧ distinctList l = true := by
  constructor
  · intro h
    by_cases hm : a ∈ l
    · simp [distinctList, hm] at h
    · exact ⟨hm, by simpa [distinctList, hm] using h⟩
  · rintro ⟨h1, h2⟩
    simp [distinctList, h1, h2]

theorem countOcc_eq_one {α : Type} [DecidableEq α] {a : α} {l : List α}
    (hd : distinctList l = true) (hm : a ∈ l) : countOcc a l = 1 := by
  induction l with
  | nil => cases hm
  | cons b l ih =>
      rcases distinctList_cons.mp hd with ⟨hb, hd2⟩
      rcases List.mem_cons.mp hm with he | hm2
      · subst he
        simp [countOcc, countOcc_eq_zero hb]
      · have hba : b ≠ a := fun e => hb (e ▸ hm2)
        simp [countOcc, if_neg hba, ih hd2 hm2]

theorem countOcc_map_pair (i n c : Nat) (s : List Nat) :
    countOcc (n, c) (s.map (fun x => (i, x))) = if n = i then countOcc c s else 0 := by
  induction s with
  | nil => simp [countOcc]
  | cons b l ih =>
      have hcond : ((i, b) = (n, c)) ↔ (i = n ∧ b = c) := by
        constructor
        · intro e
          exact ⟨congrArg Prod.fst e, congrArg Prod.snd e⟩
        · rintro ⟨e1, e2⟩
          rw [e1, e2]
      by_cases h : n = i
      · subst h
        by_cases h2 : b = c
        · subst h2
          simp [countOcc, ih]
        · simp [countOcc, ih, hcond, h2]
      · simp only [List.map_cons, countOcc, ih, if_neg h]
        rw [if_neg (fun e => h ((hcond.mp e).1.symm))]

theorem lookupEntry_mem {κ α : Type} [DecidableEq κ] {l : List (κ × α)} {k : κ} {v : α}
    (h : lookupEntry l k = some v) : (k, v) ∈ l := by
  induction l with
  | nil => cases h
  | cons p ps ih =>
      obtain ⟨a, b⟩ := p
      by_cases hp : a = k
      · simp only [lookupEntry, hp, if_pos] at h
        injection h with hv
        subst hp; subst hv
        exact List.mem_cons_self _ _
      · simp only [lookupEntry, hp, if_false] at h
        · exact List.mem_cons_of_mem _ (ih h)

theorem lookupEntry_append_of_none {κ α : Type} [DecidableEq κ]
    {l1 : List (κ × α)} {k : κ} (l2 : List (κ × α))
    (h : lookupEntry l1 k = none) : lookupEntry (l1 ++ l2) k = lookupEntry l2 k := by
  induction l1 with
  | nil => rfl
  | cons p ps ih =>
      by_cases hp : p.1 = k
      · simp [lookupEntry, hp] at h
      · simp only [List.cons_append, lookupEntry, hp, if_false] at h ⊢
        · exact ih h

theorem lookupEntry_append_of_some {κ α : Type} [DecidableEq κ]
    {l1 : List (κ × α)} {k : κ} {v : α} (l2 : List (κ × α))
    (h : lookupEntry l1 k = some v) : lookupEntry (l1 ++ l2) k = some v := by
  induction l1 with
  | nil => cases h
  | cons p ps ih =>
      by_cases hp : p.1 = k
      · simp only [lookupEntry, hp, if_pos] at h ⊢
        exact h
      · simp only [List.cons_append, lookupEntry, hp, if_false] at h ⊢
        · exact ih h

theorem lookupEntry_eraseEntry {κ α : Type} [DecidableEq κ]
    (l : List (κ × α)) (k m : κ) :
    lookupEntry (eraseEntry l k) m = if m = k then none else lookupEntry l m := by
  induction l with
  | nil => simp [eraseEntry, lookupEntry]
  | cons p ps ih =>
      obtain ⟨a, b⟩ := p
      by_cases hak : a = k
      · subst hak
        by_cases hm : m = a
        · subst hm
          simp [eraseEntry, lookupEntry, ih]
        · have h2 : ¬ (a = m) := fun e => hm e.symm
          simp [eraseEntry, lookupEntry, ih, hm, h2]
      · by_cases ham : a = m
        · have hmk : ¬ (m = k) := fun e => hak (ham.trans e)
          simp [eraseEntry, lookupEntry, hak, ham, hmk]
        · simp [eraseEntry, lookupEntry, hak, ham, ih]

theorem mem_eraseEntry {κ α : Type} [DecidableEq κ]
    {l : List (κ × α)} {k : κ} {p : κ × α}
    (h : p ∈ eraseEntry l k) : p ∈ l := by
  induction l with
  | nil => cases h
  | cons q qs ih =>
      by_cases hq : q.1 = k
      · simp only [eraseEntry, hq, if_pos] at h
        exact List.mem_cons_of_mem _ (ih h)
      · simp only [eraseEntry, hq, if_false] at h
        · rcases List.mem_cons.mp h with he | hm
          · exact he ▸ List.mem_cons_self _ _
          · exact List.mem_cons_of_mem _ (ih hm)

theorem lookupEntry_setEntry {κ α : Type} [DecidableEq κ]
    (l : List (κ × α)) (k : κ) (v : α) (m : κ) :
    lookupEntry (setEntry l k v) m =
      if m = k then (lookupEntry l k).map (fun _ => v) else lookupEntry l m := by
  induction l with
  | nil => simp [setEntry, lookupEntry]
  | cons p ps ih =>
      obtain ⟨a, b⟩ := p
      by_cases hak : a = k
      · subst hak
        by_cases hm : m = a
        · simp [setEntry, lookupEntry, hm]
        · have h2 : ¬ (a = m) := fun e => hm e.symm
          simp [setEntry, lookupEntry, ih, hm, h2]
      · by_cases ham : a = m
        · have hmk : ¬ (m = k) := fun e => hak (ham.trans e)
          simp [setEntry, lookupEntry, hak, ham, hmk]
        · simp [setEntry, lookupEntry, hak, ham, ih]

theorem onUnmount_lookup (reg : Registry) (node fn m : Nat) :
    lookupEntry (onUnmount reg node fn) m =
      if m = node then
        some (match lookupEntry reg node with
              | none => [fn]
              | some s => if fn ∈ s then s else s ++ [fn])
      else lookupEntry reg m := by
  unfold onUnmount
  cases hl : lookupEntry reg node with
  | none =>
      by_cases hm : m = node
      · subst hm
        rw [lookupEntry_append_of_none _ hl]
        simp [lookupEntry]
      · have h2 : ¬ (node = m) := fun e => hm e.symm
        cases hm2 : lookupEntry reg m with
        | none =>
            rw [lookupEntry_append_of_none _ hm2]
            simp [lookupEntry, hm, h2]
        | some w =>
            rw [lookupEntry_append_of_some _ hm2]
            simp [hm]
  | some s =>
      dsimp only
      by_cases hf : fn ∈ s
      · rw [if_pos hf]
        by_cases hm : m = node
        · subst hm
          simp [hl, hf]
        · simp [hm]
      · rw [if_neg hf]
        by_cases hm : m = node
        · subst hm
          rw [lookupEntry_setEntry]
          simp [hl, hf]
        · rw [lookupEntry_setEntry]
          simp [hm]

/-! ### Lemmas about the reactive cell -/

theorem notifyLoop_trace (subEff : Nat → RefState → RefState) (thr : Nat → Bool)
    (l : List Nat) (st : RefState) : (notifyLoop subEff thr l st).2 = l := by
  induction l generalizing st with
  | nil => rfl
  | cons fn rest ih =>
      simp only [notifyLoop]
      split <;> simp [ih]

theorem notifyLoop_pure (thr : Nat → Bool) (l : List Nat) (st : RefState) :
    notifyLoop pureEff thr l st = (st, l) := by
  induction l generalizing st with
  | nil => rfl
  | cons fn rest ih =>
      simp only [notifyLoop, pureEff]
      split <;> simp [ih]

theorem notifyLoop_thr (subEff : Nat → RefState → RefState) (thrA thrB : Nat → Bool)
    (l : List Nat) (st : RefState) :
    notifyLoop subEff thrA l st = notifyLoop subEff thrB l st := by
  induction l generalizing st with
  | nil => rfl
  | cons fn rest ih =>
      simp only [notifyLoop]
      split <;> split <;> simp [ih]

theorem ref_set_unchanged (env : Nat → JSVal → JSVal) (subEff : Nat → RefState → RefState)
    (thr : Nat → Bool) (st : RefState) (next : JSVal)
    (h : computeNext env st.value next = st.value) :
    Ref.set env subEff thr st next = (st, st.value, []) := by
  simp only [Ref.set]
  rw [if_pos h.symm]

theorem ref_set_changed (env : Nat → JSVal → JSVal) (subEff : Nat → RefState → RefState)
    (thr : Nat → Bool) (st : RefState) (next : JSVal)
    (h : computeNext env st.value next ≠ st.value) :
    Ref.set env subEff thr st next =
      ((notifyLoop subEff thr st.subs { st with value := computeNext env st.value next }).1,
       (notifyLoop subEff thr st.subs { st with value := computeNext env st.value next }).1.value,
       (notifyLoop subEff thr st.subs { st with value := computeNext env st.value next }).2) := by
  simp only [Ref.set]
  rw [if_neg (fun e => h e.symm)]

theorem ref_set_changed_pure (env : Nat → JSVal → JSVal)
    (thr : Nat → Bool) (st : RefState) (next : JSVal)
    (h : computeNext env st.value next ≠ st.value) :
    Ref.set env pureEff thr st next =
      ({ st with value := computeNext env st.value next },
       computeNext env st.value next, st.subs) := by
  rw [ref_set_changed env pureEff thr st next h, notifyLoop_pure]

/-! ### Lemmas about the unmount registry loops -/

theorem eraseEntry_of_none {κ α : Type} [DecidableEq κ] {l : List (κ × α)} {k : κ}
    (h : lookupEntry l k = none) : eraseEntry l k = l := by
  induction l with
  | nil => rfl
  | cons p ps ih =>
      by_cases hp : p.1 = k
      · simp [lookupEntry, hp] at h
      · simp only [lookupEntry, hp, if_false] at h
        · simp [eraseEntry, hp, ih h]

theorem cbLoop_trace (regs : Nat → List (Nat × Nat)) (thr : Nat → Bool) (node : Nat)
    (l : List Nat) (reg : Registry) :
    (cbLoop regs thr node l reg).2 = l.map (fun c => (node, c)) := by
  induction l generalizing reg with
  | nil => rfl
  | cons c rest ih =>
      simp only [cbLoop]
      split <;> simp [ih]

theorem cbLoop_thr (regs : Nat → List (Nat × Nat)) (thrA thrB : Nat → Bool) (node : Nat)
    (l : List Nat) (reg : Registry) :
    cbLoop regs thrA node l reg = cbLoop regs thrB node l reg := by
  induction l generalizing reg with
  | nil => rfl
  | cons c rest ih =>
      simp only [cbLoop]
      split <;> split <;> simp [ih]

theorem cbLoop_pure {regs : Nat → List (Nat × Nat)} (hpure : ∀ c, regs c = [])
    (thr : Nat → Bool) (node : Nat) (l : List Nat) (reg : Registry) :
    cbLoop regs thr node l reg = (reg, l.map (fun c => (node, c))) := by
  induction l generalizing reg with
  | nil => rfl
  | cons c rest ih =>
      have hr : cbRun regs reg c = reg := by
        rw [cbRun, hpure c]
        rfl
      simp only [cbLoop, hr]
      split <;> simp [ih]

theorem runUnmountCallbacks_trace (regs : Nat → List (Nat × Nat)) (thr : Nat → Bool)
    (reg : Registry) (node : Nat) :
    (runUnmountCallbacks regs thr reg node).2 =
      (getEntry reg node).map (fun c => (node, c)) := by
  unfold runUnmountCallbacks getEntry
  cases hl : lookupEntry reg node with
  | none => simp
  | some s => simp [cbLoop_trace]

theorem runUnmountCallbacks_thr (regs : Nat → List (Nat × Nat)) (thrA thrB : Nat → Bool)
    (reg : Registry) (node : Nat) :
    runUnmountCallbacks regs thrA reg node = runUnmountCallbacks regs thrB reg node := by
  unfold runUnmountCallbacks
  cases hl : lookupEntry reg node with
  | none => rfl
  | some s => exact cbLoop_thr regs thrA thrB node s _

theorem runUnmountCallbacks_pure {regs : Nat → List (Nat × Nat)} (hpure : ∀ c, regs c = [])
    (thr : Nat → Bool) (reg : Registry) (node : Nat) :
    runUnmountCallbacks regs thr reg node =
      (eraseEntry reg node, (getEntry reg node).map (fun c => (node, c))) := by
  unfold runUnmountCallbacks getEntry
  cases hl : lookupEntry reg node with
  | none => simp [eraseEntry_of_none hl]
  | some s => simp [cbLoop_pure hpure]

theorem unmountTreeLoop_thr (regs : Nat → List (Nat × Nat)) (thrA thrB : Nat → Bool) :
    ∀ (stack : List DomTree) (reg : Registry),
      unmountTreeLoop regs thrA stack reg = unmountTreeLoop regs thrB stack reg := by
  intro stack reg
  induction stack, reg using unmountTreeLoop.induct regs thrA with
  | case1 reg => rw [unmountTreeLoop, unmountTreeLoop]
  | case2 i cs rest reg p ih =>
      simp only [unmountTreeLoop]
      rw [← runUnmountCallbacks_thr regs thrA thrB reg i]
      have hp : p = runUnmountCallbacks regs thrA reg i := rfl
      rw [hp] at ih
      rw [ih]

theorem processRemovedList_thr (doc : List Nat) (regs : Nat → List (Nat × Nat))
    (thrA thrB : Nat → Bool) :
    ∀ (L : List DomTree) (reg : Registry),
      processRemovedList doc regs thrA L reg = processRemovedList doc regs thrB L reg := by
  intro L
  induction L with
  | nil => intro reg; rfl
  | cons t ts ih =>
      intro reg
      simp only [processRemovedList]
      by_cases h : t.id ∈ doc
      · simp [h, ih]
      · simp only [if_neg h]
        unfold unmountTree
        rw [unmountTreeLoop_thr regs thrA thrB [t] reg, ih]

theorem observerCallback_thr (doc : List Nat) (regs : Nat → List (Nat × Nat))
    (thrA thrB : Nat → Bool) :
    ∀ (batch : List Mutation) (reg : Registry),
      observerCallback doc regs thrA batch reg = observerCallback doc regs thrB batch reg := by
  intro batch
  induction batch with
  | nil => intro reg; rfl
  | cons m ms ih =>
      intro reg
      simp only [observerCallback]
      rw [processRemovedList_thr doc regs thrA thrB m.removedNodes reg, ih]

theorem runSets_pure_count (env : Nat → JSVal → JSVal) (thr : Nat → Bool) (s : Nat) :
    ∀ (args : List JSVal) (st : RefState), countOcc s st.subs = 1 →
      countOcc s (runSets env pureEff thr st args).2 = changedCount env st.value args := by
  intro args
  induction args with
  | nil =>
      intro st hs
      simp [runSets, changedCount, countOcc]
  | cons a rest ih =>
      intro st hs
      by_cases h : computeNext env st.value a = st.value
      · simp only [runSets]
        rw [ref_set_unchanged env pureEff thr st a h]
        simp only [changedCount]
        rw [if_pos h.symm]
        simpa [countOcc] using ih st hs
      · simp only [runSets]
        rw [ref_set_changed_pure env thr st a h]
        simp only [changedCount]
        rw [if_neg (fun e => h e.symm)]
        rw [countOcc_append, hs]
        have ih2 := ih { st with value := computeNext env st.value a } (by simpa using hs)
        simp only at ih2
        rw [ih2]

/-- C3: over every sequence of Ref.set calls, a registered subscriber is
invoked exactly once per call whose computed next value differs from the
previous value under same-value identity and zero times per identical
call; an identical call returns the previous value and leaves the state
unchanged, a changing call stores and returns the new value. -/
theorem ref_set_notification_exactly_once
    (env : Nat → JSVal → JSVal) (thr : Nat → Bool) (st : RefState)
    (args : List JSVal) (s : Nat) (hs : countOcc s st.subs = 1) :
    countOcc s (runSets env pureEff thr st args).2 = changedCount env st.value args ∧
    (∀ next, computeNext env st.value next = st.value →
        Ref.set env pureEff thr st next = (st, st.value, [])) ∧
    (∀ next, computeNext env st.value next ≠ st.value →
        Ref.set env pureEff thr st next =
          ({ st with value := computeNext env st.value next },
           computeNext env st.value next, st.subs)) :=
  ⟨runSets_pure_count env thr s args st hs,
   fun next h => ref_set_unchanged env pureEff thr st next h,
   fun next h => ref_set_changed_pure env thr st next h⟩

/-- Witness for C3 at a concrete input: one subscriber, a cell holding
NaN, and the call sequence set NaN, set 1, set 1, set 2 (two changes). -/
theorem ref_set_notification_exactly_once_witness :
    countOcc 4 (RefState.mk JSVal.nan [4]).subs = 1 ∧
    (countOcc 4 (runSets (fun _ v => v) pureEff noThrow (RefState.mk JSVal.nan [4])
        [JSVal.nan, JSVal.num 1, JSVal.num 1, JSVal.num 2]).2 =
      changedCount (fun _ v => v) (RefState.mk JSVal.nan [4]).value
        [JSVal.nan, JSVal.num 1, JSVal.num 1, JSVal.num 2] ∧
     (∀ next, computeNext (fun _ v => v) (RefState.mk JSVal.nan [4]).value next =
          (RefState.mk JSVal.nan [4]).value →
        Ref.set (fun _ v => v) pureEff noThrow (RefState.mk JSVal.nan [4]) next =
          (RefState.mk JSVal.nan [4], (RefState.mk JSVal.nan [4]).value, [])) ∧
     (∀ next, computeNext (fun _ v => v) (RefState.mk JSVal.nan [4]).value next ≠
          (RefState.mk JSVal.nan [4]).value →
        Ref.set (fun _ v => v) pureEff noThrow (RefState.mk JSVal.nan [4]) next =
          ({ RefState.mk JSVal.nan [4] with
              value := computeNext (fun _ v => v) (RefState.mk JSVal.nan [4]).value next },
           computeNext (fun _ v => v) (RefState.mk JSVal.nan [4]).value next,
           (RefState.mk JSVal.nan [4]).subs))) :=
  ⟨by decide,
   ref_set_notification_exactly_once (fun _ v => v) noThrow (RefState.mk JSVal.nan [4])
     [JSVal.nan, JSVal.num 1, JSVal.num 1, JSVal.num 2] 4 (by decide)⟩

/-- C5: a changing Ref.set call notifies exactly the snapshot of the
subscriber set taken before notification begins: a subscriber added during
the pass (so absent from the pre-call set) is not invoked, and a
subscriber present in the snapshot is invoked even if removed during the
pass. -/
theorem ref_set_subscriber_snapshot
    (env : Nat → JSVal → JSVal) (subEff : Nat → RefState → RefState)
    (thr : Nat → Bool) (st : RefState) (next : JSVal)
    (h : computeNext env st.value next ≠ st.value) :
    (Ref.set env subEff thr st next).2.2 = st.subs ∧
    (∀ x, x ∉ st.subs → x ∉ (Ref.set env subEff thr st next).2.2) ∧
    (∀ x, x ∈ st.subs → x ∈ (Ref.set env subEff thr st next).2.2) := by
  have e : (Ref.set env subEff thr st next).2.2 = st.subs := by
    rw [ref_set_changed env subEff thr st next h]
    exact notifyLoop_trace subEff thr st.subs _
  exact ⟨e, fun x hx => by rw [e]; exact hx, fun x hx => by rw [e]; exact hx⟩

/-- Witness for C5 at a concrete input: subscriber 1 removes subscriber 2
and adds subscriber 7 during the pass; the invoked snapshot is still
exactly the pre-call subscriber list. -/
theorem ref_set_subscriber_snapshot_witness :
    computeNext (fun _ v => v) (RefState.mk (JSVal.num 0) [1, 2, 3]).value (JSVal.num 5) ≠
        (RefState.mk (JSVal.num 0) [1, 2, 3]).value ∧
    ((Ref.set (fun _ v => v)
        (fun n st => if n = 1 then Ref.subscribe (Ref.unsub st 2) 7 else st)
        noThrow (RefState.mk (JSVal.num 0) [1, 2, 3]) (JSVal.num 5)).2.2 =
      (RefState.mk (JSVal.num 0) [1, 2, 3]).subs ∧
     (∀ x, x ∉ (RefState.mk (JSVal.num 0) [1, 2, 3]).subs →
        x ∉ (Ref.set (fun _ v => v)
          (fun n st => if n = 1 then Ref.subscribe (Ref.unsub st 2) 7 else st)
          noThrow (RefState.mk (JSVal.num 0) [1, 2, 3]) (JSVal.num 5)).2.2) ∧
     (∀ x, x ∈ (RefState.mk (JSVal.num 0) [1, 2, 3]).subs →
        x ∈ (Ref.set (fun _ v => v)
          (fun n st => if n = 1 then Ref.subscribe (Ref.unsub st 2) 7 else st)
          noThrow (RefState.mk (JSVal.num 0) [1, 2, 3]) (JSVal.num 5)).2.2)) :=
  ⟨by decide,
   ref_set_subscriber_snapshot (fun _ v => v)
     (fun n st => if n = 1 then Ref.subscribe (Ref.unsub st 2) 7 else st)
     noThrow (RefState.mk (JSVal.num 0) [1, 2, 3]) (JSVal.num 5) (by decide)⟩

/-- C9 counterexample: the claim that a function value can never be stored
in the cell through set fails at a concrete input: an updater that returns
a function object leaves the cell holding a function value. -/
theorem ref_set_function_stored_counterexample :
    isFunctionVal ((Ref.set (fun _ _ => JSVal.funcId 1) pureEff noThrow
        (RefState.mk (JSVal.num 5) []) (JSVal.funcId 0)).1.value) = true := by
  decide

/-- C9 amended: Ref.set always treats a function argument as an updater,
invoking it on the current value; the value committed and the value
returned are exactly the updater result (which may itself be a function),
so the function argument itself is never stored as passed, though a
function value can still be stored when the updater returns one. -/
theorem ref_set_function_always_updater
    (env : Nat → JSVal → JSVal) (thr : Nat → Bool) (st : RefState) (k : Nat) :
    computeNext env st.value (JSVal.funcId k) = env k st.value ∧
    (Ref.set env pureEff thr st (JSVal.funcId k)).1.value = env k st.value ∧
    (Ref.set env pureEff thr st (JSVal.funcId k)).2.1 = env k st.value := by
  refine ⟨rfl, ?_, ?_⟩ <;>
  · by_cases h : computeNext env st.value (JSVal.funcId k) = st.value
    · rw [ref_set_unchanged env pureEff thr st _ h]
      exact h.symm
    · rw [ref_set_changed_pure env thr st _ h]
      rfl

/-- C6: a throwing subscriber or cleanup callback is caught and discarded:
the outcome of Ref.set, of runUnmountCallbacks and of the batch-processing
observer callback does not depend on which callbacks throw, every
callback of the snapshot is still invoked, and set still returns the
stored value. -/
theorem subscriber_cleanup_errors_swallowed
    (env : Nat → JSVal → JSVal) (subEff : Nat → RefState → RefState)
    (thrA thrB : Nat → Bool) (st : RefState) (next : JSVal)
    (regs : Nat → List (Nat × Nat)) (thrC thrD : Nat → Bool)
    (reg : Registry) (node : Nat) :
    Ref.set env subEff thrA st next = Ref.set env subEff thrB st next ∧
    (Ref.set env subEff thrA st next).2.1 = (Ref.set env subEff thrA st next).1.value ∧
    (computeNext env st.value next ≠ st.value →
        (Ref.set env subEff thrA st next).2.2 = st.subs) ∧
    runUnmountCallbacks regs thrC reg node = runUnmountCallbacks regs thrD reg node ∧
    (runUnmountCallbacks regs thrC reg node).2 =
      (getEntry reg node).map (fun c => (node, c)) ∧
    (∀ doc batch, observerCallback doc regs thrC batch reg =
        observerCallback doc regs thrD batch reg) := by
  refine ⟨?_, ?_, ?_, runUnmountCallbacks_thr regs thrC thrD reg node,
    runUnmountCallbacks_trace regs thrC reg node,
    fun doc batch => observerCallback_thr doc regs thrC thrD batch reg⟩
  · by_cases h : computeNext env st.value next = st.value
    · rw [ref_set_unchanged env subEff thrA st next h,
        ref_set_unchanged env subEff thrB st next h]
    · rw [ref_set_changed env subEff thrA st next h,
        ref_set_changed env subEff thrB st next h,
        notifyLoop_thr subEff thrA thrB]
  · by_cases h : computeNext env st.value next = st.value
    · rw [ref_set_unchanged env subEff thrA st next h]
    · rw [ref_set_changed env subEff thrA st next h]
  · intro h
    rw [ref_set_changed env subEff thrA st next h]
    exact notifyLoop_trace subEff thrA st.subs _

/-- Witness for C6 at a concrete input: a subscriber set where every
callback throws (thr is constantly true) behaves exactly like one where
none does. -/
theorem subscriber_cleanup_errors_swallowed_witness :
    Ref.set (fun _ v => v) pureEff (fun _ => true) (RefState.mk (JSVal.num 0) [1]) (JSVal.num 3) =
      Ref.set (fun _ v => v) pureEff noThrow (RefState.mk (JSVal.num 0) [1]) (JSVal.num 3) ∧
    (Ref.set (fun _ v => v) pureEff (fun _ => true)
        (RefState.mk (JSVal.num 0) [1]) (JSVal.num 3)).2.1 =
      (Ref.set (fun _ v => v) pureEff (fun _ => true)
        (RefState.mk (JSVal.num 0) [1]) (JSVal.num 3)).1.value ∧
    (computeNext (fun _ v => v) (RefState.mk (JSVal.num 0) [1]).value (JSVal.num 3) ≠
        (RefState.mk (JSVal.num 0) [1]).value →
      (Ref.set (fun _ v => v) pureEff (fun _ => true)
          (RefState.mk (JSVal.num 0) [1]) (JSVal.num 3)).2.2 =
        (RefState.mk (JSVal.num 0) [1]).subs) ∧
    runUnmountCallbacks (fun _ => []) (fun _ => true) [(0, [5])] 0 =
      runUnmountCallbacks (fun _ => []) noThrow [(0, [5])] 0 ∧
    (runUnmountCallbacks (fun _ => []) (fun _ => true) [(0, [5])] 0).2 =
      (getEntry [(0, [5])] 0).map (fun c => (0, c)) ∧
    (∀ doc batch, observerCallback doc (fun _ => []) (fun _ => true) batch [(0, [5])] =
        observerCallback doc (fun _ => []) noThrow batch [(0, [5])]) :=
  subscriber_cleanup_errors_swallowed (fun _ v => v) pureEff (fun _ => true) noThrow
    (RefState.mk (JSVal.num 0) [1]) (JSVal.num 3) (fun _ => []) (fun _ => true) noThrow
    [(0, [5])] 0

theorem onUnmount_noop {reg : Registry} {node fn : Nat} {s : List Nat}
    (hl : lookupEntry reg node = some s) (hf : fn ∈ s) : onUnmount reg node fn = reg := by
  unfold onUnmount
  rw [hl]
  dsimp only
  rw [if_pos hf]

theorem cbRun_single {regs : Nat → List (Nat × Nat)} {c : Nat} {node fn : Nat}
    (hc : regs c = [(node, fn)]) (reg : Registry) :
    cbRun regs reg c = onUnmount reg node fn := by
  rw [cbRun, hc]
  rfl

theorem cbLoop_register_stable {regs : Nat → List (Nat × Nat)} {node fn2 : Nat}
    (thr : Nat → Bool) :
    ∀ (l : List Nat) (reg : Registry), (∀ c ∈ l, regs c = [(node, fn2)]) →
      lookupEntry reg node = some [fn2] →
      (cbLoop regs thr node l reg).1 = reg := by
  intro l
  induction l with
  | nil => intro reg _ _; rfl
  | cons c rest ih =>
      intro reg hregs hl
      have hr : cbRun regs reg c = reg := by
        rw [cbRun_single (hregs c (List.mem_cons_self c rest)) reg]
        exact onUnmount_noop hl (List.mem_cons_self fn2 [])
      simp only [cbLoop, hr]
      have ih2 := ih reg (fun d hd => hregs d (List.mem_cons_of_mem c hd)) hl
      split <;> simpa using ih2

/-- C2 counterexample: in the live-set variant of runUnmountCallbacks
(src/src/internal/cleanup.ts lines 75-89), a cleanup callback (id 0) that
registers a new cleanup (id 1) on the same node during the run sees that
new cleanup invoked in the same run, and the entry is deleted afterwards,
so the new cleanup is lost instead of being preserved in a fresh entry. -/
theorem runUnmountCallbacks_live_reentrant_counterexample :
    (runUnmountCallbacksLive (fun c => if c = 0 then [(0, 1)] else []) noThrow 10
        [(0, [0])] 0).2 = [(0, 0), (0, 1)] ∧
    lookupEntry (runUnmountCallbacksLive (fun c => if c = 0 then [(0, 1)] else []) noThrow 10
        [(0, [0])] 0).1 0 = none := by
  decide

/-- C2 amended: the snapshot-based runUnmountCallbacks (src/src/cleanup.ts
lines 65-82 and src/src/internal/cleanup.ts lines 136-153) is a no-op on a
node with no entry; on a node with an entry it snapshots the callbacks,
deletes the entry first and only then invokes exactly the snapshotted
callbacks, so a cleanup registered on the same node during the run is
preserved in a fresh entry and is not invoked in the current run.  (The
live-set variant at src/src/internal/cleanup.ts lines 75-89 does not have
this property: see the counterexample.) -/
theorem runAndClear_snapshot_semantics
    (regs : Nat → List (Nat × Nat)) (thr : Nat → Bool) (reg : Registry) (node : Nat) :
    (lookupEntry reg node = none → runUnmountCallbacks regs thr reg node = (reg, [])) ∧
    (∀ s, lookupEntry reg node = some s →
        (runUnmountCallbacks regs thr reg node).2 = s.map (fun c => (node, c)) ∧
        runUnmountCallbacks regs thr reg node = cbLoop regs thr node s (eraseEntry reg node)) ∧
    (∀ s fn2, lookupEntry reg node = some s → s ≠ [] → fn2 ∉ s →
        (∀ c ∈ s, regs c = [(node, fn2)]) →
        lookupEntry (runUnmountCallbacks regs thr reg node).1 node = some [fn2] ∧
        (node, fn2) ∉ (runUnmountCallbacks regs thr reg node).2) := by
  refine ⟨?_, ?_, ?_⟩
  · intro h
    unfold runUnmountCallbacks
    rw [h]
  · intro s hl
    constructor
    · rw [runUnmountCallbacks_trace]
      unfold getEntry
      rw [hl]
      rfl
    · unfold runUnmountCallbacks
      rw [hl]
  · intro s fn2 hl hne hf hregs
    have hrun : runUnmountCallbacks regs thr reg node = cbLoop regs thr node s (eraseEntry reg node) := by
      unfold runUnmountCallbacks
      rw [hl]
    constructor
    · rw [hrun]
      obtain ⟨c, rest, rfl⟩ : ∃ c rest, s = c :: rest := by
        cases s with
        | nil => exact absurd rfl hne
        | cons c rest => exact ⟨c, rest, rfl⟩
      have hr : cbRun regs (eraseEntry reg node) c = onUnmount (eraseEntry reg node) node fn2 :=
        cbRun_single (hregs c (List.mem_cons_self c rest)) _
      have hl0 : lookupEntry (eraseEntry reg node) node = none := by
        rw [lookupEntry_eraseEntry]
        simp
      have hl1 : lookupEntry (onUnmount (eraseEntry reg node) node fn2) node = some [fn2] := by
        rw [onUnmount_lookup, hl0]
        simp
      have hst := cbLoop_register_stable thr rest (onUnmount (eraseEntry reg node) node fn2)
        (fun d hd => hregs d (List.mem_cons_of_mem c hd)) hl1
      simp only [cbLoop, hr]
      split <;> simpa [hst] using hl1
    · intro hmem
      rw [runUnmountCallbacks_trace] at hmem
      unfold getEntry at hmem
      rw [hl] at hmem
      simp only [Option.getD_some, List.mem_map] at hmem
      obtain ⟨a, ha, heq⟩ := hmem
      have ha2 : a = fn2 := congrArg Prod.snd heq
      exact hf (ha2 ▸ ha)

/-- Witness for C2 at a concrete input: a node with two snapshotted
cleanups, each of which registers the fresh cleanup 9 on the same node. -/
theorem runAndClear_snapshot_semantics_witness :
    (lookupEntry [(0, [3, 4])] 0 = none →
        runUnmountCallbacks (fun _ => [(0, 9)]) noThrow [(0, [3, 4])] 0 = ([(0, [3, 4])], [])) ∧
    (∀ s, lookupEntry [(0, [3, 4])] 0 = some s →
        (runUnmountCallbacks (fun _ => [(0, 9)]) noThrow [(0, [3, 4])] 0).2 =
          s.map (fun c => (0, c)) ∧
        runUnmountCallbacks (fun _ => [(0, 9)]) noThrow [(0, [3, 4])] 0 =
          cbLoop (fun _ => [(0, 9)]) noThrow 0 s (eraseEntry [(0, [3, 4])] 0)) ∧
    (∀ s fn2, lookupEntry [(0, [3, 4])] 0 = some s → s ≠ [] → fn2 ∉ s →
        (∀ c ∈ s, (fun _ => [(0, 9)] : Nat → List (Nat × Nat)) c = [(0, fn2)]) →
        lookupEntry (runUnmountCallbacks (fun _ => [(0, 9)]) noThrow [(0, [3, 4])] 0).1 0 =
          some [fn2] ∧
        (0, fn2) ∉ (runUnmountCallbacks (fun _ => [(0, 9)]) noThrow [(0, [3, 4])] 0).2) :=
  runAndClear_snapshot_semantics (fun _ => [(0, 9)]) noThrow [(0, [3, 4])] 0

/-! ### Lemmas about the subtree walks -/

theorem sizeL_append : ∀ (a b : List DomTree), sizeL (a ++ b) = sizeL a + sizeL b := by
  intro a b
  induction a with
  | nil => simp [sizeL]
  | cons t ts ih => simp [sizeL, ih]; omega

theorem preorderList_append :
    ∀ (a b : List DomTree), preorderList (a ++ b) = preorderList a ++ preorderList b := by
  intro a b
  induction a with
  | nil => simp [preorderList]
  | cons t ts ih => simp [preorderList, ih]

theorem preorderStack_eq : ∀ stack, preorderStack stack = preorderList stack := by
  intro stack
  induction stack using preorderStack.induct with
  | case1 => simp [preorderStack, preorderList]
  | case2 i cs rest ih =>
      rw [preorderStack, ih, preorderList_append]
      simp [preorderList, preorder]

theorem preorderStack_singleton (t : DomTree) : preorderStack [t] = preorder t := by
  rw [preorderStack_eq]
  simp [preorderList]

theorem traverseChildren_append (regs : Nat → List (Nat × Nat)) (thr : Nat → Bool) :
    ∀ (a b : List DomTree) (reg : Registry),
      traverseChildren regs thr (a ++ b) reg =
        ⟨(traverseChildren regs thr b (traverseChildren regs thr a reg).reg).reg,
         (traverseChildren regs thr a reg).visited ++
           (traverseChildren regs thr b (traverseChildren regs thr a reg).reg).visited,
         (traverseChildren regs thr a reg).trace ++
           (traverseChildren regs thr b (traverseChildren regs thr a reg).reg).trace⟩ := by
  intro a
  induction a with
  | nil => intro b reg; simp [traverseChildren]
  | cons c cs ih =>
      intro b reg
      simp only [List.cons_append, traverseChildren, List.append_eq, ih, List.append_assoc]

theorem unmountTreeLoop_eq_traverseChildren (regs : Nat → List (Nat × Nat)) (thr : Nat → Bool) :
    ∀ (stack : List DomTree) (reg : Registry),
      unmountTreeLoop regs thr stack reg = traverseChildren regs thr stack reg := by
  intro stack reg
  induction stack, reg using unmountTreeLoop.induct regs thr with
  | case1 reg =>
      rw [unmountTreeLoop]
      simp [traverseChildren]
  | case2 i cs rest reg p ih =>
      simp only [unmountTreeLoop]
      have hp : p = runUnmountCallbacks regs thr reg i := rfl
      rw [hp] at ih
      rw [ih, traverseChildren_append]
      simp only [traverseChildren, traverseRemovedTree, List.cons_append, List.append_assoc]

theorem unmountTreeLoop_visited (regs : Nat → List (Nat × Nat)) (thr : Nat → Bool) :
    ∀ (stack : List DomTree) (reg : Registry),
      (unmountTreeLoop regs thr stack reg).visited = preorderStack stack := by
  intro stack reg
  induction stack, reg using unmountTreeLoop.induct regs thr with
  | case1 reg =>
      rw [unmountTreeLoop, preorderStack]
  | case2 i cs rest reg p ih =>
      simp only [unmountTreeLoop]
      have hp : p = runUnmountCallbacks regs thr reg i := rfl
      rw [hp] at ih
      rw [preorderStack]
      simp [ih]

/-- C4: the iterative explicit-stack walk unmountTree and the recursive
walk traverseRemovedTree are equal as functions of the removed subtree,
and both visit exactly the nodes of the subtree in pre-order: the removed
root first, then the descendants left-to-right, applying
runUnmountCallbacks at each visited node. -/
theorem unmountTree_traverseRemovedTree_equiv
    (regs : Nat → List (Nat × Nat)) (thr : Nat → Bool) (t : DomTree) (reg : Registry) :
    unmountTree regs thr t reg = traverseRemovedTree regs thr t reg ∧
    (traverseRemovedTree regs thr t reg).visited = preorder t ∧
    (unmountTree regs thr t reg).visited = preorder t := by
  have h1 : unmountTree regs thr t reg = traverseRemovedTree regs thr t reg := by
    unfold unmountTree
    rw [unmountTreeLoop_eq_traverseChildren]
    cases t with
    | node i cs => simp [traverseChildren, traverseRemovedTree]
  have h2 : (unmountTree regs thr t reg).visited = preorder t := by
    unfold unmountTree
    rw [unmountTreeLoop_visited, preorderStack_singleton]
  exact ⟨h1, h1 ▸ h2, h2⟩

theorem unmountTreeLoop_trace_nodes (regs : Nat → List (Nat × Nat)) (thr : Nat → Bool) :
    ∀ (stack : List DomTree) (reg : Registry) (n c : Nat),
      (n, c) ∈ (unmountTreeLoop regs thr stack reg).trace → n ∈ preorderStack stack := by
  intro stack reg
  induction stack, reg using unmountTreeLoop.induct regs thr with
  | case1 reg =>
      intro n c h
      rw [unmountTreeLoop] at h
      cases h
  | case2 i cs rest reg p ih =>
      intro n c h
      simp only [unmountTreeLoop] at h
      have hp : p = runUnmountCallbacks regs thr reg i := rfl
      rw [hp] at ih
      rw [preorderStack]
      rcases List.mem_append.mp h with h1 | h2
      · rw [runUnmountCallbacks_trace] at h1
        simp only [List.mem_map] at h1
        obtain ⟨a, _, heq⟩ := h1
        have hi : i = n := congrArg Prod.fst heq
        exact hi ▸ List.mem_cons_self _ _
      · exact List.mem_cons_of_mem _ (ih n c h2)

theorem unmountTreeLoop_lookup_outside {regs : Nat → List (Nat × Nat)}
    (hpure : ∀ c, regs c = []) (thr : Nat → Bool) :
    ∀ (stack : List DomTree) (reg : Registry) (n : Nat), n ∉ preorderStack stack →
      lookupEntry (unmountTreeLoop regs thr stack reg).reg n = lookupEntry reg n := by
  intro stack reg
  induction stack, reg using unmountTreeLoop.induct regs thr with
  | case1 reg =>
      intro n _
      rw [unmountTreeLoop]
  | case2 i cs rest reg p ih =>
      intro n h
      rw [preorderStack] at h
      have hni : n ≠ i := fun e => h (e ▸ List.mem_cons_self i _)
      have hrest : n ∉ preorderStack (cs ++ rest) := fun hm => h (List.mem_cons_of_mem _ hm)
      simp only [unmountTreeLoop]
      have hp : p = runUnmountCallbacks regs thr reg i := rfl
      rw [hp] at ih
      rw [ih n hrest, runUnmountCallbacks_pure hpure]
      dsimp only
      rw [lookupEntry_eraseEntry, if_neg hni]

theorem unmountTreeLoop_sub {regs : Nat → List (Nat × Nat)}
    (hpure : ∀ c, regs c = []) (thr : Nat → Bool) :
    ∀ (stack : List DomTree) (reg : Registry) (q : Nat × List Nat),
      q ∈ (unmountTreeLoop regs thr stack reg).reg → q ∈ reg := by
  intro stack reg
  induction stack, reg using unmountTreeLoop.induct regs thr with
  | case1 reg =>
      intro q h
      rw [unmountTreeLoop] at h
      exact h
  | case2 i cs rest reg p ih =>
      intro q h
      simp only [unmountTreeLoop] at h
      have hp : p = runUnmountCallbacks regs thr reg i := rfl
      rw [hp] at ih
      have h2 := ih q h
      rw [runUnmountCallbacks_pure hpure] at h2
      dsimp only at h2
      exact mem_eraseEntry h2

theorem unmountTreeLoop_master {regs : Nat → List (Nat × Nat)}
    (hpure : ∀ c, regs c = []) (thr : Nat → Bool) :
    ∀ (stack : List DomTree) (reg : Registry),
      distinctList (preorderStack stack) = true →
      (∀ q ∈ reg, distinctList q.2 = true) →
      ∀ n c,
        countOcc (n, c) (unmountTreeLoop regs thr stack reg).trace =
          (if n ∈ preorderStack stack ∧ c ∈ getEntry reg n then 1 else 0) ∧
        (n ∈ preorderStack stack →
          lookupEntry (unmountTreeLoop regs thr stack reg).reg n = none) := by
  intro stack reg
  induction stack, reg using unmountTreeLoop.induct regs thr with
  | case1 reg =>
      intro _ _ n c
      rw [unmountTreeLoop, preorderStack]
      constructor
      · simp [countOcc]
      · intro h
        cases h
  | case2 i cs rest reg p ih =>
      intro hd hq n c
      rw [preorderStack] at hd
      rcases distinctList_cons.mp hd with ⟨hi, hd2⟩
      have hp : p = runUnmountCallbacks regs thr reg i := rfl
      rw [hp] at ih
      have hpr := runUnmountCallbacks_pure hpure thr reg i
      have hq2 : ∀ q ∈ (runUnmountCallbacks regs thr reg i).1, distinctList q.2 = true := by
        intro q hmem
        rw [hpr] at hmem
        exact hq q (mem_eraseEntry hmem)
      have ihh := ih hd2 hq2 n c
      constructor
      · simp only [unmountTreeLoop]
        rw [countOcc_append, preorderStack]
        rw [runUnmountCallbacks_trace, countOcc_map_pair, ihh.1]
        by_cases hni : n = i
        · subst hni
          have hln : lookupEntry (runUnmountCallbacks regs thr reg n).1 n = none := by
            rw [hpr]
            dsimp only
            rw [lookupEntry_eraseEntry]
            simp
          have hge : getEntry (runUnmountCallbacks regs thr reg n).1 n = [] := by
            unfold getEntry
            rw [hln]
            rfl
          have hcnt : countOcc c (getEntry reg n) = if c ∈ getEntry reg n then 1 else 0 := by
            by_cases hc : c ∈ getEntry reg n
            · rw [if_pos hc]
              apply countOcc_eq_one ?_ hc
              unfold getEntry
              cases hl : lookupEntry reg n with
              | none => simp [distinctList]
              | some s =>
                  have := hq (n, s) (lookupEntry_mem hl)
                  simpa using this
            · rw [if_neg hc, countOcc_eq_zero hc]
          rw [hge, if_pos rfl, hcnt]
          simp [hi]
        · rw [if_neg hni]
          have hge : getEntry (runUnmountCallbacks regs thr reg i).1 n = getEntry reg n := by
            unfold getEntry
            rw [hpr]
            dsimp only
            rw [lookupEntry_eraseEntry, if_neg hni]
          rw [hge]
          simp [List.mem_cons, hni]
      · intro hmem
        simp only [unmountTreeLoop]
        rw [preorderStack] at hmem
        by_cases hni : n = i
        · subst hni
          have hrest : n ∉ preorderStack (cs ++ rest) := fun hm => hi hm
          rw [unmountTreeLoop_lookup_outside hpure thr (cs ++ rest) _ n hrest]
          rw [hpr]
          dsimp only
          rw [lookupEntry_eraseEntry]
          simp
        · rcases List.mem_cons.mp hmem with he | hm2
          · exact absurd he hni
          · exact ihh.2 hm2

theorem processRemovedList_append (doc : List Nat) (regs : Nat → List (Nat × Nat))
    (thr : Nat → Bool) :
    ∀ (A B : List DomTree) (reg : Registry),
      processRemovedList doc regs thr (A ++ B) reg =
        ((processRemovedList doc regs thr B (processRemovedList doc regs thr A reg).1).1,
         (processRemovedList doc regs thr A reg).2 ++
           (processRemovedList doc regs thr B (processRemovedList doc regs thr A reg).1).2) := by
  intro A
  induction A with
  | nil => intro B reg; simp [processRemovedList]
  | cons u us ih =>
      intro B reg
      simp only [List.cons_append, processRemovedList]
      by_cases h : u.id ∈ doc
      · simp [h, ih]
      · simp [h, ih, List.append_assoc]

theorem observerCallback_eq_flat (doc : List Nat) (regs : Nat → List (Nat × Nat))
    (thr : Nat → Bool) :
    ∀ (batch : List Mutation) (reg : Registry),
      observerCallback doc regs thr batch reg =
        processRemovedList doc regs thr (allRemoved batch) reg := by
  intro batch
  induction batch with
  | nil => intro reg; rfl
  | cons m ms ih =>
      intro reg
      simp only [observerCallback, allRemoved]
      rw [processRemovedList_append, ih]

theorem processRemoved_connected (regs : Nat → List (Nat × Nat)) (doc : List Nat)
    (thr : Nat → Bool) :
    ∀ (L : List DomTree) (reg : Registry),
      (∀ u ∈ L, u.id ∉ doc → ∀ m ∈ preorderStack [u], m ∉ doc) →
      ∀ n, n ∈ doc → ∀ c, (n, c) ∉ (processRemovedList doc regs thr L reg).2 := by
  intro L
  induction L with
  | nil =>
      intro reg _ n _ c h
      cases h
  | cons u us ih =>
      intro reg hcons n hn c h
      simp only [processRemovedList] at h
      by_cases hu : u.id ∈ doc
      · rw [if_pos hu] at h
        exact ih reg (fun v hv => hcons v (List.mem_cons_of_mem _ hv)) n hn c h
      · rw [if_neg hu] at h
        rcases List.mem_append.mp h with h1 | h2
        · have hmem : n ∈ preorderStack [u] :=
            unmountTreeLoop_trace_nodes regs thr [u] reg n c h1
          exact hcons u (List.mem_cons_self _ _) hu n hmem hn
        · exact ih _ (fun v hv => hcons v (List.mem_cons_of_mem _ hv)) n hn c h2

theorem processRemoved_count {regs : Nat → List (Nat × Nat)}
    (hpure : ∀ c, regs c = []) (doc : List Nat) (thr : Nat → Bool)
    (t : DomTree) (n : Nat)
    (htid : t.id ∉ doc) (hnt : n ∈ preorderStack [t])
    (hdt : distinctList (preorderStack [t]) = true) :
    ∀ (L : List DomTree) (reg : Registry),
      (∀ u ∈ L, u = t ∨ n ∉ preorderStack [u]) →
      (∀ q ∈ reg, distinctList q.2 = true) →
      ∀ c,
        countOcc (n, c) (processRemovedList doc regs thr L reg).2 =
          (if t ∈ L ∧ c ∈ getEntry reg n then 1 else 0) ∧
        lookupEntry (processRemovedList doc regs thr L reg).1 n =
          (if t ∈ L then none else lookupEntry reg n) := by
  intro L
  induction L with
  | nil =>
      intro reg _ _ c
      simp [processRemovedList, countOcc]
  | cons u us ih =>
      intro reg hside hq c
      by_cases hut : u = t
      · subst hut
        simp only [processRemovedList, DomTree.id] at *
        rw [if_neg htid]
        have hm := unmountTreeLoop_master hpure thr [u] reg hdt hq n c
        have h1 : countOcc (n, c) (unmountTree regs thr u reg).trace =
            if c ∈ getEntry reg n then 1 else 0 := by
          unfold unmountTree
          rw [hm.1]
          simp [hnt]
        have hln : lookupEntry (unmountTree regs thr u reg).reg n = none := by
          unfold unmountTree
          exact hm.2 hnt
        have hge : getEntry (unmountTree regs thr u reg).reg n = [] := by
          unfold getEntry
          rw [hln]
          rfl
        have hq2 : ∀ q ∈ (unmountTree regs thr u reg).reg, distinctList q.2 = true :=
          fun q hmem => hq q (unmountTreeLoop_sub hpure thr [u] reg q hmem)
        have ih2 := ih (unmountTree regs thr u reg).reg
          (fun v hv => hside v (List.mem_cons_of_mem _ hv)) hq2 c
        constructor
        · rw [countOcc_append, h1, ih2.1, hge]
          simp
        · rw [ih2.2, hln]
          simp
      · have hnu : n ∉ preorderStack [u] := by
          rcases hside u (List.mem_cons_self _ _) with h | h
          · exact absurd h hut
          · exact h
        have hm3 : (t ∈ u :: us) ↔ (t ∈ us) := by
          rw [List.mem_cons]
          exact or_iff_right (fun e => hut e.symm)
        simp only [processRemovedList]
        by_cases hud : u.id ∈ doc
        · rw [if_pos hud]
          have ih2 := ih reg (fun v hv => hside v (List.mem_cons_of_mem _ hv)) hq c
          simp only [hm3]
          exact ih2
        · rw [if_neg hud]
          have h0 : countOcc (n, c) (unmountTree regs thr u reg).trace = 0 := by
            apply countOcc_eq_zero
            intro hmem
            exact hnu (unmountTreeLoop_trace_nodes regs thr [u] reg n c hmem)
          have hlu : lookupEntry (unmountTree regs thr u reg).reg n = lookupEntry reg n := by
            unfold unmountTree
            exact unmountTreeLoop_lookup_outside hpure thr [u] reg n hnu
          have hgu : getEntry (unmountTree regs thr u reg).reg n = getEntry reg n := by
            unfold getEntry
            rw [hlu]
          have hq2 : ∀ q ∈ (unmountTree regs thr u reg).reg, distinctList q.2 = true :=
            fun q hmem => hq q (unmountTreeLoop_sub hpure thr [u] reg q hmem)
          have ih2 := ih (unmountTree regs thr u reg).reg
            (fun v hv => hside v (List.mem_cons_of_mem _ hv)) hq2 c
          constructor
          · rw [countOcc_append, h0, ih2.1, hgu]
            simp only [hm3, Nat.zero_add]
          · rw [ih2.2, hlu]
            simp only [hm3]

/-- C1: for every delivered batch of mutation records and every node
reported as removed in it (with consistent connectivity and
reference-disjointness of the reported subtrees, and effect-free
cleanups): if the node is still connected at batch-processing time (a
move), no unmount callback of the node or of any descendant appears in
the executed-cleanup trace; if it is disconnected, every cleanup
registered on the node and on each descendant runs exactly once, even
when the node appears in several removal records of the batch. -/
theorem detector_batch_move_vs_destroy
    (doc : List Nat) (regs : Nat → List (Nat × Nat)) (thr : Nat → Bool)
    (reg : Registry) (batch : List Mutation) (t : DomTree)
    (hpure : ∀ c, regs c = [])
    (hentries : ∀ q ∈ reg, distinctList q.2 = true)
    (hconn : ∀ u ∈ allRemoved batch, ∀ m ∈ preorder u, (m ∈ doc ↔ u.id ∈ doc))
    (hdisj : ∀ u ∈ allRemoved batch, ∀ v ∈ allRemoved batch,
        u = v ∨ ∀ m ∈ preorder u, m ∉ preorder v)
    (hnodup : ∀ u ∈ allRemoved batch, distinctList (preorder u) = true)
    (hmem : t ∈ allRemoved batch) :
    (t.id ∈ doc → ∀ n ∈ preorder t, ∀ c,
        (n, c) ∉ (observerCallback doc regs thr batch reg).2) ∧
    (t.id ∉ doc → ∀ n ∈ preorder t, ∀ c, c ∈ getEntry reg n →
        countOcc (n, c) (observerCallback doc regs thr batch reg).2 = 1) := by
  constructor
  · intro ht n hn c
    rw [observerCallback_eq_flat]
    have hnd : n ∈ doc := (hconn t hmem n hn).mpr ht
    apply processRemoved_connected regs doc thr (allRemoved batch) reg ?_ n hnd c
    intro u hu hud m hm
    rw [preorderStack_singleton] at hm
    exact fun hmd => hud ((hconn u hu m hm).mp hmd)
  · intro ht n hn c hc
    rw [observerCallback_eq_flat]
    have hnt : n ∈ preorderStack [t] := by
      rw [preorderStack_singleton]
      exact hn
    have hdt : distinctList (preorderStack [t]) = true := by
      rw [preorderStack_singleton]
      exact hnodup t hmem
    have hside : ∀ u ∈ allRemoved batch, u = t ∨ n ∉ preorderStack [u] := by
      intro u hu
      rcases hdisj t hmem u hu with he | hd
      · exact Or.inl he.symm
      · refine Or.inr ?_
        rw [preorderStack_singleton]
        exact hd n hn
    have h := processRemoved_count hpure doc thr t n ht hnt hdt
      (allRemoved batch) reg hside hentries c
    rw [h.1, if_pos ⟨hmem, hc⟩]

/-- Witness for C1 at a concrete input: a batch of two records in which
the disconnected subtree rooted at node 0 (with child 1) is reported
twice, and the connected node 9 once; cleanups 10, 11 run exactly once
each and node 9 keeps its cleanup untouched. -/
theorem detector_batch_move_vs_destroy_witness :
    (∀ q ∈ ([(0, [10]), (1, [11]), (9, [12])] : Registry), distinctList q.2 = true) ∧
    (∀ u ∈ allRemoved [Mutation.mk [DomTree.node 0 [DomTree.node 1 []], DomTree.node 9 []],
        Mutation.mk [DomTree.node 0 [DomTree.node 1 []]]],
      ∀ m ∈ preorder u, (m ∈ [9] ↔ u.id ∈ [9])) ∧
    (∀ u ∈ allRemoved [Mutation.mk [DomTree.node 0 [DomTree.node 1 []], DomTree.node 9 []],
        Mutation.mk [DomTree.node 0 [DomTree.node 1 []]]],
      ∀ v ∈ allRemoved [Mutation.mk [DomTree.node 0 [DomTree.node 1 []], DomTree.node 9 []],
        Mutation.mk [DomTree.node 0 [DomTree.node 1 []]]],
      u = v ∨ ∀ m ∈ preorder u, m ∉ preorder v) ∧
    ((DomTree.node 0 [DomTree.node 1 []]).id ∉ [9] →
      ∀ n ∈ preorder (DomTree.node 0 [DomTree.node 1 []]),
      ∀ c, c ∈ getEntry [(0, [10]), (1, [11]), (9, [12])] n →
        countOcc (n, c) (observerCallback [9] (fun _ => []) noThrow
          [Mutation.mk [DomTree.node 0 [DomTree.node 1 []], DomTree.node 9 []],
           Mutation.mk [DomTree.node 0 [DomTree.node 1 []]]]
          [(0, [10]), (1, [11]), (9, [12])]).2 = 1) ∧
    ((DomTree.node 9 []).id ∈ [9] →
      ∀ n ∈ preorder (DomTree.node 9 []),
      ∀ c, (n, c) ∉ (observerCallback [9] (fun _ => []) noThrow
          [Mutation.mk [DomTree.node 0 [DomTree.node 1 []], DomTree.node 9 []],
           Mutation.mk [DomTree.node 0 [DomTree.node 1 []]]]
          [(0, [10]), (1, [11]), (9, [12])]).2) :=
  ⟨by decide, by decide, by decide,
   (detector_batch_move_vs_destroy [9] (fun _ => []) noThrow
      [(0, [10]), (1, [11]), (9, [12])]
      [Mutation.mk [DomTree.node 0 [DomTree.node 1 []], DomTree.node 9 []],
       Mutation.mk [DomTree.node 0 [DomTree.node 1 []]]]
      (DomTree.node 0 [DomTree.node 1 []])
      (fun _ => rfl) (by decide) (by decide) (by decide) (by decide) (by decide)).2,
   (detector_batch_move_vs_destroy [9] (fun _ => []) noThrow
      [(0, [10]), (1, [11]), (9, [12])]
      [Mutation.mk [DomTree.node 0 [DomTree.node 1 []], DomTree.node 9 []],
       Mutation.mk [DomTree.node 0 [DomTree.node 1 []]]]
      (DomTree.node 9 [])
      (fun _ => rfl) (by decide) (by decide) (by decide) (by decide) (by decide)).1⟩

/-! ### Lemmas about the mount entry point -/

theorem lookupEntry_replaceChildren_self (m : List (Nat × List DomTree)) (root : Nat)
    (cs : List DomTree) : lookupEntry (replaceChildren m root cs) root = some cs := by
  unfold replaceChildren
  cases hl : lookupEntry m root with
  | none =>
      rw [lookupEntry_append_of_none _ hl]
      simp [lookupEntry]
  | some w =>
      rw [lookupEntry_setEntry]
      simp [hl]

theorem mount_childrenOf (w : MountWorld) (root : Nat) (nd : DomTree) :
    lookupEntry (mount w root nd).childrenOf root = some [nd] := by
  unfold mount
  by_cases h : root ∈ w.observedRoots
  · simp [h, lookupEntry_replaceChildren_self]
  · simp [h, lookupEntry_replaceChildren_self]

theorem mount_observed_iff (w : MountWorld) (r : Nat) (nd : DomTree) (x : Nat) :
    x ∈ (mount w r nd).observedRoots ↔ x ∈ w.observedRoots ∨ x = r := by
  unfold mount
  by_cases hr : r ∈ w.observedRoots
  · simp only [hr, if_pos]
    constructor
    · exact Or.inl
    · rintro (h | rfl)
      · exact h
      · exact hr
  · simp only [hr, if_neg, not_false_iff, List.mem_append, List.mem_singleton]

theorem runMounts_count (root : Nat) :
    ∀ (seq : List (Nat × DomTree)) (w : MountWorld),
      countOcc root w.observations = (if root ∈ w.observedRoots then 1 else 0) →
      countOcc root (runMounts w seq).observations =
        (if root ∈ w.observedRoots ∨ (∃ p ∈ seq, p.1 = root) then 1 else 0) := by
  intro seq
  induction seq with
  | nil =>
      intro w h
      simp only [runMounts]
      rw [h]
      by_cases hm : root ∈ w.observedRoots <;> simp [hm]
  | cons p rest ih =>
      intro w h
      obtain ⟨r, nd⟩ := p
      simp only [runMounts]
      have hinv : countOcc root (mount w r nd).observations =
          (if root ∈ (mount w r nd).observedRoots then 1 else 0) := by
        unfold mount
        by_cases hr : r ∈ w.observedRoots
        · simpa [hr] using h
        · simp only [hr, if_neg, not_false_iff]
          rw [countOcc_append]
          by_cases hroot : r = root
          · subst hroot
            rw [h, if_neg hr]
            have hc1 : countOcc r [r] = 1 := by simp [countOcc]
            have hm1 : r ∈ w.observedRoots ++ [r] := by
              simp [List.mem_append]
            rw [hc1, if_pos hm1]
          · have hc0 : countOcc root [r] = 0 :=
              countOcc_eq_zero (by
                simp only [List.mem_singleton]
                exact fun e => hroot e.symm)
            rw [hc0, h]
            have hmm : (root ∈ w.observedRoots ++ [r]) ↔ root ∈ w.observedRoots := by
              simp only [List.mem_append, List.mem_singleton]
              constructor
              · rintro (h2 | h2)
                · exact h2
                · exact absurd h2.symm hroot
              · exact Or.inl
            by_cases hm : root ∈ w.observedRoots <;> simp [hm, hmm]
      have hres := ih (mount w r nd) hinv
      rw [hres]
      have hiff : (root ∈ (mount w r nd).observedRoots ∨ (∃ p ∈ rest, p.1 = root)) ↔
          (root ∈ w.observedRoots ∨ (∃ p ∈ (r, nd) :: rest, p.1 = root)) := by
        rw [mount_observed_iff]
        constructor
        · rintro ((h1 | h1) | h1)
          · exact Or.inl h1
          · exact Or.inr ⟨(r, nd), List.mem_cons_self _ _, h1.symm⟩
          · obtain ⟨q, hq, hq2⟩ := h1
            exact Or.inr ⟨q, List.mem_cons_of_mem _ hq, hq2⟩
        · rintro (h1 | h1)
          · exact Or.inl (Or.inl h1)
          · obtain ⟨q, hq, hq2⟩ := h1
            rcases List.mem_cons.mp hq with he | hm
            · refine Or.inl (Or.inr ?_)
              rw [← hq2, he]
            · exact Or.inr ⟨q, hm, hq2⟩
      rw [if_congr hiff rfl rfl]

/-- C7: every mount call replaces the children of its root with the
produced node, and over any sequence of mount calls on a previously
unobserved root, observer.observe is called exactly once on that root
when the sequence mounts it at least once, and never otherwise. -/
theorem mount_idempotent_observation
    (w0 : MountWorld) (root : Nat) (seq : List (Nat × DomTree))
    (h0 : countOcc root w0.observations = 0) (h1 : root ∉ w0.observedRoots) :
    (∀ (w : MountWorld) (r : Nat) (nd : DomTree),
        lookupEntry (mount w r nd).childrenOf r = some [nd]) ∧
    countOcc root (runMounts w0 seq).observations =
      (if (∃ p ∈ seq, p.1 = root) then 1 else 0) := by
  constructor
  · intro w r nd
    exact mount_childrenOf w r nd
  · have hres := runMounts_count root seq w0 (by rw [h0, if_neg h1])
    rw [hres, if_congr (or_iff_right h1) rfl rfl]

/-- Witness for C7 at a concrete input: root 5 is mounted twice and root
6 once, starting from a fresh world; root 5 is observed exactly once. -/
theorem mount_idempotent_observation_witness :
    countOcc 5 (MountWorld.mk [] [] []).observations = 0 ∧
    5 ∉ (MountWorld.mk [] [] []).observedRoots ∧
    ((∀ (w : MountWorld) (r : Nat) (nd : DomTree),
        lookupEntry (mount w r nd).childrenOf r = some [nd]) ∧
     countOcc 5 (runMounts (MountWorld.mk [] [] [])
        [(5, DomTree.node 0 []), (5, DomTree.node 1 []), (6, DomTree.node 2 [])]).observations =
      (if (∃ p ∈ ([(5, DomTree.node 0 []), (5, DomTree.node 1 []), (6, DomTree.node 2 [])] :
            List (Nat × DomTree)), p.1 = 5) then 1 else 0)) :=
  ⟨by decide, by decide,
   mount_idempotent_observation (MountWorld.mk [] [] []) 5
     [(5, DomTree.node 0 []), (5, DomTree.node 1 []), (6, DomTree.node 2 [])]
     (by decide) (by decide)⟩

/-! ### The router claims -/

/-- C8 counterexample: with the router uninitialized (routerRoot none),
navigate does not throw: at a concrete input it returns normally, merely
updating the hash, contradicting the claim that every router operation
performed before initialization, in particular navigate, throws. -/
theorem navigate_uninitialized_no_throw_counterexample :
    (RouterState.mk [] none "" []).routerRoot = none ∧
    navigate (RouterState.mk [] none "" []) "/about" =
      Except.ok (RouterState.mk [] none "#/about" []) := by
  constructor
  · rfl
  · rfl

/-- C8 amended: with the router uninitialized, the rendering path
(renderRoute, via ensureRouterRoot) throws a synchronous error describing
the violated precondition, but navigate performs no initialization check:
it returns normally and at most updates the hash. -/
theorem router_uninitialized_render_throws
    (compFn : Nat → RNode) (st : RouterState) (path : String)
    (h : st.routerRoot = none) :
    renderRoute compFn st path =
      Except.error "Router not initialized. Call createRouter(...) first." ∧
    ensureRouterRoot st =
      Except.error "Router not initialized. Call createRouter(...) first." ∧
    (∃ st2, navigate st path = Except.ok st2) := by
  have he : ensureRouterRoot st =
      Except.error "Router not initialized. Call createRouter(...) first." := by
    unfold ensureRouterRoot
    rw [h]
  refine ⟨?_, he, ?_⟩
  · unfold renderRoute
    rw [he]
  · simp only [navigate]
    split
    · exact ⟨st, rfl⟩
    · exact ⟨setLocationHash st (normalizePath path), rfl⟩

/-- Witness for C8 at a concrete input. -/
theorem router_uninitialized_render_throws_witness :
    (RouterState.mk [("/", 0)] none "" []).routerRoot = none ∧
    (renderRoute (fun _ => RNode.text "X") (RouterState.mk [("/", 0)] none "" []) "/a" =
      Except.error "Router not initialized. Call createRouter(...) first." ∧
    ensureRouterRoot (RouterState.mk [("/", 0)] none "" []) =
      Except.error "Router not initialized. Call createRouter(...) first." ∧
    (∃ st2, navigate (RouterState.mk [("/", 0)] none "" []) "/a" = Except.ok st2)) :=
  ⟨rfl, router_uninitialized_render_throws (fun _ => RNode.text "X")
    (RouterState.mk [("/", 0)] none "" []) "/a" rfl⟩

/-- C10: rendering a path with no component in the active route map
replaces the router root children with a single Not found text node,
invokes no component, and leaves the route map unchanged. -/
theorem renderRoute_not_found
    (compFn : Nat → RNode) (st : RouterState) (path : String) (r : Nat)
    (hroot : st.routerRoot = some r) (hmiss : lookupEntry st.routes path = none) :
    renderRoute compFn st path =
      Except.ok ({ st with rootChildren := [RNode.text "Not found"] }, []) ∧
    ({ st with rootChildren := [RNode.text "Not found"] } : RouterState).routes = st.routes ∧
    ({ st with rootChildren := [RNode.text "Not found"] } : RouterState).rootChildren =
      [RNode.text "Not found"] := by
  have he : ensureRouterRoot st = Except.ok r := by
    unfold ensureRouterRoot
    rw [hroot]
  refine ⟨?_, rfl, rfl⟩
  unfold renderRoute
  rw [he, hmiss]

/-- Witness for C10 at a concrete input: the registered routes map only
the root path, and the missing path renders the Not found text node. -/
theorem renderRoute_not_found_witness :
    (RouterState.mk [("/", 0)] (some 7) "#/missing" []).routerRoot = some 7 ∧
    lookupEntry (RouterState.mk [("/", 0)] (some 7) "#/missing" []).routes "/missing" = none ∧
    (renderRoute (fun _ => RNode.text "X")
        (RouterState.mk [("/", 0)] (some 7) "#/missing" []) "/missing" =
      Except.ok ({ RouterState.mk [("/", 0)] (some 7) "#/missing" [] with
          rootChildren := [RNode.text "Not found"] }, []) ∧
    ({ RouterState.mk [("/", 0)] (some 7) "#/missing" [] with
        rootChildren := [RNode.text "Not found"] } : RouterState).routes =
      (RouterState.mk [("/", 0)] (some 7) "#/missing" []).routes ∧
    ({ RouterState.mk [("/", 0)] (some 7) "#/missing" [] with
        rootChildren := [RNode.text "Not found"] } : RouterState).rootChildren =
      [RNode.text "Not found"]) :=
  ⟨rfl, by decide,
   renderRoute_not_found (fun _ => RNode.text "X")
     (RouterState.mk [("/", 0)] (some 7) "#/missing" []) "/missing" 7 rfl (by decide)⟩
